import Mathlib

/-
Verification of the machine registry / port-allocation core of the
fly-ssh-bastion server.

The development shallowly embeds the Go source:

* `internal/db/migrations.go` — the machine store backed by SQLite: the
  `machines` table (UNIQUE name, UNIQUE port), `AllocatePort`,
  `CreateMachine`, `GetMachine`, `ListMachines`, `DeleteMachine`,
  `RenameMachine`, `UpdateLastSeen`.  The store is modelled as a list of
  `Machine` records in insertion order; SQLite's UNIQUE-constraint failures
  are modelled as explicit `DBError` results, and a failed statement leaves
  the state unchanged (SQLite statements are atomic).
* `internal/server/handlers.go` — the HTTP handlers: `validatePublicKey`,
  `Register`, `DeleteMachine`, `regenerateConfig`.  Filesystem effects are
  modelled as fields of a `World` record; the environment decides, through
  boolean fields of `Env`, whether each fallible file write succeeds, and
  whether reading the server's public-key file succeeds (`serverPub`).
* `internal/config/generator.go` — `Generate` (the sshpiper.yaml text,
  with the template expanded literally), `UpdateAuthorizedKeys` (the merged
  authorized_keys content), `WriteKey`, `RemoveKey`.
-/

namespace Bastion

/-! ## Data model (`internal/db/migrations.go`) -/

/-- Constant `PortMin` from migrations.go. -/
def PortMin : Nat := 10022

/-- Constant `PortMax` from migrations.go. -/
def PortMax : Nat := 10099

/-- One row of the `machines` table / the Go `Machine` struct.
Timestamps are opaque `Nat`s. -/
structure Machine where
  id : Nat
  name : String
  owner : String
  port : Nat
  localUser : String
  publicKey : String
  createdAt : Nat
  lastSeen : Option Nat
deriving Repr, DecidableEq

/-- The machine store: the rows of the `machines` table, in rowid order. -/
abbrev Store := List Machine

/-- Errors surfaced by the db layer.  `nameConflict` stands for SQLite's
UNIQUE-constraint failure on the `name` column; `poolExhausted` for the
"no available ports" error of `AllocatePort`; `notFound` for the
zero-rows-affected error of `DeleteMachine`/`RenameMachine`/`UpdateLastSeen`. -/
inductive DBError where
  | poolExhausted
  | nameConflict
  | notFound (name : String)
deriving Repr, DecidableEq

/-- The set of ports in use: `SELECT port FROM machines`. -/
def usedPorts (st : Store) : List Nat := st.map Machine.port

/-- Whether some row has the given name. -/
def hasName (st : Store) (n : String) : Bool := st.any (fun m => m.name == n)

/-- The ascending scan `for p := PortMin; p <= PortMax; p++` of
`AllocatePort`: the first port in `[a, a+n)` not in `used`. -/
def findFreePort (used : List Nat) : Nat → Nat → Option Nat
  | _, 0 => none
  | a, n + 1 => if used.contains a then findFreePort used (a + 1) n else some a

/-- Function `AllocatePort` (migrations.go): lowest free port in `[PortMin, PortMax]`,
or the pool-exhausted error. -/
def allocatePort (st : Store) : Except DBError Nat :=
  match findFreePort (usedPorts st) PortMin (PortMax - PortMin + 1) with
  | some p => .ok p
  | none => .error .poolExhausted

/-- Function `CreateMachine` (migrations.go): allocate a port, then
`INSERT INTO machines ...`; the insert fails on a duplicate name
(UNIQUE constraint), leaving the table unchanged.  `created_at` defaults to
the current time, `last_seen` to NULL.  Returns the inserted row and the new
table. -/
def createMachine (st : Store) (name owner localUser publicKey : String)
    (now : Nat) : Except DBError (Machine × Store) :=
  match allocatePort st with
  | .error e => .error e
  | .ok p =>
    if hasName st name then .error .nameConflict
    else
      let m : Machine :=
        { id := st.length + 1, name := name, owner := owner, port := p,
          localUser := localUser, publicKey := publicKey,
          createdAt := now, lastSeen := none }
      .ok (m, st ++ [m])

/-- Function `GetMachine` (migrations.go): `SELECT ... WHERE name = ?`;
absence is returned as `none`, not an error. -/
def getMachine (st : Store) (n : String) : Option Machine :=
  st.find? (fun m => m.name == n)

/-- Function `DeleteMachine` (migrations.go): `DELETE FROM machines WHERE name = ?`;
zero rows affected is the "not found" error. -/
def deleteMachine (st : Store) (n : String) : Except DBError Store :=
  if hasName st n then .ok (st.filter (fun m => m.name != n))
  else .error (.notFound n)

/-- Function `RenameMachine` (migrations.go):
`UPDATE machines SET name = ? WHERE name = ?`.  If no row matches the old
name, zero rows are affected and the "not found" error is returned.  If a
row matches, the update succeeds unless a *different* row already carries
the new name, in which case the UNIQUE constraint on `name` fails and the
statement leaves the table unchanged.  In particular renaming a machine to
its own current name succeeds (one row affected, no constraint violation). -/
def renameMachine (st : Store) (oldName newName : String) :
    Except DBError Store :=
  if hasName st oldName then
    if newName != oldName && hasName st newName then .error .nameConflict
    else .ok (st.map (fun m =>
      if m.name == oldName then { m with name := newName } else m))
  else .error (.notFound oldName)

/-- Function `UpdateLastSeen` (migrations.go):
`UPDATE machines SET last_seen = CURRENT_TIMESTAMP WHERE name = ?`. -/
def updateLastSeen (st : Store) (n : String) (now : Nat) :
    Except DBError Store :=
  if hasName st n then
    .ok (st.map (fun m =>
      if m.name == n then { m with lastSeen := some now } else m))
  else .error (.notFound n)

/-! ## Store invariants and reachability -/

/-- The schema invariants: names pairwise distinct (UNIQUE name), ports
pairwise distinct (UNIQUE port), every port inside the fixed pool, and every
row carrying exactly one port (one port column per row). -/
def WF (st : Store) : Prop :=
  (st.map Machine.name).Nodup ∧
  (st.map Machine.port).Nodup ∧
  (∀ m ∈ st, PortMin ≤ m.port ∧ m.port ≤ PortMax) ∧
  (st.map Machine.port).length = st.length

/-- States reachable from the empty table through the four mutating store
operations. -/
inductive Reachable : Store → Prop where
  | empty : Reachable []
  | create {st st' : Store} {name owner localUser publicKey : String}
      {now : Nat} {m : Machine} : Reachable st →
      createMachine st name owner localUser publicKey now = .ok (m, st') →
      Reachable st'
  | rename {st st' : Store} {a b : String} : Reachable st →
      renameMachine st a b = .ok st' → Reachable st'
  | delete {st st' : Store} {n : String} : Reachable st →
      deleteMachine st n = .ok st' → Reachable st'
  | heartbeat {st st' : Store} {n : String} {now : Nat} : Reachable st →
      updateLastSeen st n now = .ok st' → Reachable st'

/-! ## The ascending scan of `AllocatePort` -/

theorem contains_eq_mem (l : List Nat) (a : Nat) :
    l.contains a = decide (a ∈ l) := by
  simp [List.contains, List.elem_eq_mem]

theorem findFreePort_some (used : List Nat) :
    ∀ n a p, findFreePort used a n = some p →
      a ≤ p ∧ p < a + n ∧ p ∉ used ∧ ∀ q, a ≤ q → q < p → q ∈ used := by
  intro n
  induction n with
  | zero => intro a p h; simp [findFreePort] at h
  | succ n ih =>
    intro a p h
    rw [findFreePort] at h
    by_cases hc : used.contains a
    · rw [if_pos hc] at h
      obtain ⟨h1, h2, h3, h4⟩ := ih (a + 1) p h
      refine ⟨by omega, by omega, h3, ?_⟩
      intro q hq1 hq2
      rcases Nat.eq_or_lt_of_le hq1 with rfl | hlt
      · rw [contains_eq_mem] at hc; simpa using hc
      · exact h4 q hlt hq2
    · rw [if_neg hc] at h
      cases h
      rw [contains_eq_mem] at hc
      refine ⟨Nat.le_refl _, by omega, by simpa using hc, ?_⟩
      intro q hq1 hq2; omega

theorem findFreePort_none (used : List Nat) :
    ∀ n a, findFreePort used a n = none ↔ ∀ q, a ≤ q → q < a + n → q ∈ used := by
  intro n
  induction n with
  | zero => intro a; simp [findFreePort]; intro q h1 h2; omega
  | succ n ih =>
    intro a
    rw [findFreePort]
    by_cases hc : used.contains a
    · rw [if_pos hc, ih]
      constructor
      · intro h q hq1 hq2
        rcases Nat.eq_or_lt_of_le hq1 with rfl | hlt
        · rw [contains_eq_mem] at hc; simpa using hc
        · exact h q hlt (by omega)
      · intro h q hq1 hq2; exact h q (by omega) (by omega)
    · rw [if_neg hc]
      simp only [reduceCtorEq, false_iff]
      intro h
      rw [contains_eq_mem] at hc
      exact hc (by simpa using h a (Nat.le_refl a) (by omega))

theorem findFreePort_here (used : List Nat) (a n : Nat) (hn : 0 < n)
    (h : used.contains a = false) : findFreePort used a n = some a := by
  cases n with
  | zero => omega
  | succ n => rw [findFreePort, h]; simp

theorem mem_usedPorts {st : Store} {q : Nat} :
    q ∈ usedPorts st ↔ ∃ x ∈ st, x.port = q := by
  simp [usedPorts]

/-- C1: `AllocatePort` is the lowest-free policy: whenever some port of
`[PortMin, PortMax]` is unused it returns the smallest unused port of the
range; it fails with the pool-exhausted error exactly when every port of the
range is in use; and after deleting the machine holding port `PortMin`, the
next allocation returns exactly `PortMin` again. -/
theorem allocatePort_lowest_free (st : Store) (hwf : WF st) :
    ((∃ p, PortMin ≤ p ∧ p ≤ PortMax ∧ p ∉ usedPorts st) →
      ∃ p, allocatePort st = .ok p ∧ PortMin ≤ p ∧ p ≤ PortMax ∧
        p ∉ usedPorts st ∧
        ∀ q, PortMin ≤ q → q ≤ PortMax → q ∉ usedPorts st → p ≤ q) ∧
    (allocatePort st = .error .poolExhausted ↔
      ∀ p, PortMin ≤ p → p ≤ PortMax → p ∈ usedPorts st) ∧
    (∀ m ∈ st, m.port = PortMin → ∀ st', deleteMachine st m.name = .ok st' →
      allocatePort st' = .ok PortMin) := by
  obtain ⟨hnames, hports, hrange, hlen⟩ := hwf
  refine ⟨?_, ?_, ?_⟩
  · intro ⟨p, hp1, hp2, hp3⟩
    cases h : findFreePort (usedPorts st) PortMin (PortMax - PortMin + 1) with
    | none =>
      exfalso
      exact hp3 ((findFreePort_none _ _ _).mp h p hp1
        (by simp only [PortMin, PortMax] at *; omega))
    | some r =>
      obtain ⟨h1, h2, h3, h4⟩ := findFreePort_some _ _ _ _ h
      refine ⟨r, by simp [allocatePort, h], h1,
        by simp only [PortMin, PortMax] at *; omega, h3, ?_⟩
      intro q hq1 hq2 hq3
      by_contra hlt
      exact hq3 (h4 q hq1 (by omega))
  · constructor
    · intro h p hp1 hp2
      cases hf : findFreePort (usedPorts st) PortMin (PortMax - PortMin + 1) with
      | none =>
        exact (findFreePort_none _ _ _).mp hf p hp1
          (by simp only [PortMin, PortMax] at *; omega)
      | some r => simp [allocatePort, hf] at h
    · intro h
      cases hf : findFreePort (usedPorts st) PortMin (PortMax - PortMin + 1) with
      | none => simp [allocatePort, hf]
      | some r =>
        obtain ⟨h1, h2, h3, _⟩ := findFreePort_some _ _ _ _ hf
        exact absurd (h r h1 (by simp only [PortMin, PortMax] at *; omega)) h3
  · intro m hm hport st' hdel
    have hdel' : st' = st.filter (fun x => x.name != m.name) := by
      by_cases hn : hasName st m.name
      · simp [deleteMachine, hn] at hdel; exact hdel.symm
      · simp [deleteMachine, hn] at hdel
    have hfree : PortMin ∉ usedPorts st' := by
      rw [mem_usedPorts]
      rintro ⟨x, hx, hxp⟩
      rw [hdel'] at hx
      rw [List.mem_filter] at hx
      obtain ⟨hxst, hxname⟩ := hx
      have : x = m := List.inj_on_of_nodup_map hports hxst hm (by rw [hxp, hport])
      subst this
      simp at hxname
    rw [allocatePort, findFreePort_here _ _ _ (by simp [PortMin, PortMax])
      (by rw [contains_eq_mem]; simpa using hfree)]

/-- Witness for C1: a concrete two-machine store with ports 10022 and 10024;
the store is well-formed and the theorem's conclusion is obtained from it. -/
theorem allocatePort_lowest_free_witness :
    WF [
      { id := 1, name := "m1", owner := "o", port := 10022, localUser := "u",
        publicKey := "k1", createdAt := 0, lastSeen := none },
      { id := 2, name := "m2", owner := "o", port := 10024, localUser := "u",
        publicKey := "k2", createdAt := 0, lastSeen := none }] ∧
    allocatePort [
      { id := 1, name := "m1", owner := "o", port := 10022, localUser := "u",
        publicKey := "k1", createdAt := 0, lastSeen := none },
      { id := 2, name := "m2", owner := "o", port := 10024, localUser := "u",
        publicKey := "k2", createdAt := 0, lastSeen := none }] = .ok 10023 := by
  have hwf : WF [
      { id := 1, name := "m1", owner := "o", port := 10022, localUser := "u",
        publicKey := "k1", createdAt := 0, lastSeen := none },
      { id := 2, name := "m2", owner := "o", port := 10024, localUser := "u",
        publicKey := "k2", createdAt := 0, lastSeen := none }] := by
    refine ⟨by decide, by decide, ?_, rfl⟩
    intro m hm
    simp only [List.mem_cons, List.not_mem_nil, or_false] at hm
    rcases hm with rfl | rfl <;> simp [PortMin, PortMax]
  refine ⟨hwf, ?_⟩
  obtain ⟨p, hp, hp1, hp2, hp3, hp4⟩ :=
    (allocatePort_lowest_free _ hwf).1
      ⟨10023, by simp [PortMin], by simp [PortMax], by decide⟩
  have : p = 10023 := by
    have h22 : (10022 : Nat) ∈ usedPorts [
      { id := 1, name := "m1", owner := "o", port := 10022, localUser := "u",
        publicKey := "k1", createdAt := 0, lastSeen := none },
      { id := 2, name := "m2", owner := "o", port := 10024, localUser := "u",
        publicKey := "k2", createdAt := 0, lastSeen := none }] := by decide
    have hle := hp4 10023 (by simp [PortMin]) (by simp [PortMax]) (by decide)
    have : p ≠ 10022 := by rintro rfl; exact hp3 h22
    simp only [PortMin] at hp1
    omega
  rw [this] at hp
  exact hp


/-! ## Invariant preservation (C2) -/

theorem WF_nil : WF [] := ⟨List.nodup_nil, List.nodup_nil, by simp, rfl⟩

theorem hasName_false_iff {st : Store} {n : String} :
    hasName st n = false ↔ n ∉ st.map Machine.name := by
  simp [hasName, List.any_eq_true]

theorem allocatePort_ok {st : Store} {p : Nat} (h : allocatePort st = .ok p) :
    PortMin ≤ p ∧ p ≤ PortMax ∧ p ∉ usedPorts st := by
  unfold allocatePort at h
  cases hf : findFreePort (usedPorts st) PortMin (PortMax - PortMin + 1) with
  | none => rw [hf] at h; cases h
  | some r =>
    rw [hf] at h
    cases h
    obtain ⟨h1, h2, h3, _⟩ := findFreePort_some _ _ _ _ hf
    exact ⟨h1, by simp only [PortMin, PortMax] at *; omega, h3⟩

theorem createMachine_WF {st st' : Store}
    {name owner localUser publicKey : String} {now : Nat} {m : Machine}
    (hwf : WF st)
    (h : createMachine st name owner localUser publicKey now = .ok (m, st')) :
    WF st' := by
  obtain ⟨hnames, hports, hrange, _⟩ := hwf
  cases halloc : allocatePort st with
  | error e => simp [createMachine, halloc] at h
  | ok p =>
    by_cases hn : hasName st name
    · simp [createMachine, halloc, hn] at h
    · simp [createMachine, halloc, hn] at h
      obtain ⟨hp1, hp2, hp3⟩ := allocatePort_ok halloc
      obtain ⟨hm, hst⟩ := h
      subst hm
      rw [← hst]
      refine ⟨?_, ?_, ?_, by simp⟩
      · rw [List.map_append, List.nodup_append]
        refine ⟨hnames, List.nodup_singleton _, ?_⟩
        intro a ha hb
        simp only [List.map_cons, List.map_nil, List.mem_singleton] at hb
        subst hb
        exact (hasName_false_iff.mp (Bool.eq_false_iff.mpr hn)) ha
      · rw [List.map_append, List.nodup_append]
        refine ⟨hports, List.nodup_singleton _, ?_⟩
        intro a ha hb
        simp only [List.map_cons, List.map_nil, List.mem_singleton] at hb
        subst hb
        exact hp3 ha
      · intro x hx
        rw [List.mem_append] at hx
        rcases hx with hx | hx
        · exact hrange x hx
        · simp only [List.mem_singleton] at hx
          subst hx
          exact ⟨hp1, hp2⟩

theorem renameMachine_WF {st st' : Store} {a b : String}
    (hwf : WF st) (h : renameMachine st a b = .ok st') : WF st' := by
  obtain ⟨hnames, hports, hrange, _⟩ := hwf
  by_cases ha : hasName st a
  · by_cases hcond : (b != a && hasName st b) = true
    · simp [renameMachine, ha, hcond] at h
    · simp [renameMachine, ha, hcond] at h
      have hcond' : b = a ∨ hasName st b = false := by
        rcases Bool.and_eq_false_iff.mp (Bool.not_eq_true _ ▸ hcond) with h1 | h1
        · left
          simp [bne] at h1
          exact h1
        · right; exact h1
      rw [← h]
      have hport : ∀ m ∈ st, Machine.port
          ((fun m => if m.name = a then { m with name := b } else m) m)
            = m.port := by
        intro m _
        by_cases hm : m.name = a <;> simp [hm]
      have hmports : (st.map (fun m =>
          if m.name = a then { m with name := b } else m)).map Machine.port
            = st.map Machine.port := by
        rw [List.map_map]
        exact List.map_congr_left hport
      refine ⟨?_, by rw [hmports]; exact hports, ?_, by simp⟩
      · have hmnames : (st.map (fun m =>
            if m.name = a then { m with name := b } else m)).map Machine.name
              = (st.map Machine.name).map (fun x => if x = a then b else x) := by
          rw [List.map_map, List.map_map]
          refine List.map_congr_left (fun m _ => ?_)
          simp only [Function.comp_apply]
          by_cases hm : m.name = a
          · rw [if_pos hm, if_pos hm]
          · rw [if_neg hm, if_neg hm]
        rw [hmnames]
        rw [List.nodup_map_iff_inj_on hnames]
        intro x hx y hy hxy
        by_cases hxa : x = a <;> by_cases hya : y = a
        · rw [hxa, hya]
        · rw [if_pos hxa, if_neg hya] at hxy
          rcases hcond' with hba | hb
          · rw [hxa, ← hba, hxy]
          · exfalso
            exact (hasName_false_iff.mp hb) (hxy ▸ hy)
        · rw [if_neg hxa, if_pos hya] at hxy
          rcases hcond' with hba | hb
          · rw [hya, ← hba, ← hxy]
          · exfalso
            exact (hasName_false_iff.mp hb) (hxy ▸ hx)
        · rwa [if_neg hxa, if_neg hya] at hxy
      · intro x hx
        rw [List.mem_map] at hx
        obtain ⟨m, hm, rfl⟩ := hx
        rw [hport m hm]
        exact hrange m hm
  · simp [renameMachine, ha] at h

theorem deleteMachine_WF {st st' : Store} {n : String}
    (hwf : WF st) (h : deleteMachine st n = .ok st') : WF st' := by
  obtain ⟨hnames, hports, hrange, _⟩ := hwf
  unfold deleteMachine at h
  by_cases hn : hasName st n
  · rw [if_pos hn] at h
    cases h
    refine ⟨?_, ?_, ?_, by simp⟩
    · exact hnames.sublist ((List.filter_sublist st).map Machine.name)
    · exact hports.sublist ((List.filter_sublist st).map Machine.port)
    · intro x hx
      exact hrange x (List.mem_of_mem_filter hx)
  · rw [if_neg hn] at h; cases h

theorem updateLastSeen_WF {st st' : Store} {n : String} {now : Nat}
    (hwf : WF st) (h : updateLastSeen st n now = .ok st') : WF st' := by
  obtain ⟨hnames, hports, hrange, _⟩ := hwf
  by_cases hn : hasName st n
  · simp [updateLastSeen, hn] at h
    rw [← h]
    have hname : ∀ m ∈ st, Machine.name
        ((fun m => if m.name = n then { m with lastSeen := some now } else m)
          m) = m.name := by
      intro m _
      by_cases hm : m.name = n <;> simp [hm]
    have hport : ∀ m ∈ st, Machine.port
        ((fun m => if m.name = n then { m with lastSeen := some now } else m)
          m) = m.port := by
      intro m _
      by_cases hm : m.name = n <;> simp [hm]
    refine ⟨?_, ?_, ?_, by simp⟩
    · have heq : (st.map (fun m =>
          if m.name = n then { m with lastSeen := some now } else m)).map
            Machine.name = st.map Machine.name := by
        rw [List.map_map]
        exact List.map_congr_left hname
      rw [heq]
      exact hnames
    · have heq : (st.map (fun m =>
          if m.name = n then { m with lastSeen := some now } else m)).map
            Machine.port = st.map Machine.port := by
        rw [List.map_map]
        exact List.map_congr_left hport
      rw [heq]
      exact hports
    · intro x hx
      rw [List.mem_map] at hx
      obtain ⟨m, hm, rfl⟩ := hx
      by_cases hmn : m.name = n <;> simp [hmn] <;> exact hrange m hm
  · simp [updateLastSeen, hn] at h

theorem reachable_wf_aux {st : Store} (h : Reachable st) : WF st := by
  induction h with
  | empty => exact WF_nil
  | create _ hop ih => exact createMachine_WF ih hop
  | rename _ hop ih => exact renameMachine_WF ih hop
  | delete _ hop ih => exact deleteMachine_WF ih hop
  | heartbeat _ hop ih => exact updateLastSeen_WF ih hop

/-- C2: every reachable store state satisfies the schema invariants, and the
result of any of the four mutating operations on a reachable state satisfies
them again: machine names pairwise distinct, ports pairwise distinct, every
port inside `[PortMin, PortMax]`, and exactly one port column per row. -/
theorem store_mutations_preserve_invariants (st : Store) (h : Reachable st) :
    WF st ∧
    (∀ name owner localUser publicKey now m st',
      createMachine st name owner localUser publicKey now = .ok (m, st') →
      WF st') ∧
    (∀ a b st', renameMachine st a b = .ok st' → WF st') ∧
    (∀ n st', deleteMachine st n = .ok st' → WF st') ∧
    (∀ n now st', updateLastSeen st n now = .ok st' → WF st') := by
  have hwf := reachable_wf_aux h
  exact ⟨hwf,
    fun _ _ _ _ _ _ _ hop => createMachine_WF hwf hop,
    fun _ _ _ hop => renameMachine_WF hwf hop,
    fun _ _ hop => deleteMachine_WF hwf hop,
    fun _ _ _ hop => updateLastSeen_WF hwf hop⟩

/-- Witness for C2: the store holding one machine created on the empty store
is reachable, and the instantiated conclusion holds for it. -/
theorem store_mutations_preserve_invariants_witness :
    Reachable [
      { id := 1, name := "m1", owner := "o", port := 10022, localUser := "u",
        publicKey := "k1", createdAt := 0, lastSeen := none }] ∧
    WF [
      { id := 1, name := "m1", owner := "o", port := 10022, localUser := "u",
        publicKey := "k1", createdAt := 0, lastSeen := none }] := by
  have hr : Reachable [
      { id := 1, name := "m1", owner := "o", port := 10022, localUser := "u",
        publicKey := "k1", createdAt := 0, lastSeen := none }] :=
    @Reachable.create [] [
      { id := 1, name := "m1", owner := "o", port := 10022, localUser := "u",
        publicKey := "k1", createdAt := 0, lastSeen := none }]
      "m1" "o" "u" "k1" 0
      { id := 1, name := "m1", owner := "o", port := 10022, localUser := "u",
        publicKey := "k1", createdAt := 0, lastSeen := none }
      Reachable.empty rfl
  exact ⟨hr, (store_mutations_preserve_invariants _ hr).1⟩

/-! ## Rename atomicity (C7) -/

theorem getMachine_eq_none_iff {st : Store} {n : String} :
    getMachine st n = none ↔ ∀ x ∈ st, x.name ≠ n := by
  simp [getMachine, List.find?_eq_none]

theorem hasName_true_of_getMachine {st : Store} {n : String} {m : Machine}
    (h : getMachine st n = some m) : hasName st n = true := by
  have hmem := List.mem_of_find?_eq_some h
  have hp := List.find?_some h
  rw [hasName, List.any_eq_true]
  exact ⟨m, hmem, hp⟩

theorem getMachine_cons {x : Machine} {rest : Store} {n : String} :
    getMachine (x :: rest) n =
      if x.name == n then some x else getMachine rest n := by
  simp only [getMachine, List.find?_cons]
  by_cases h : x.name == n
  · simp [h]
  · simp [h]

theorem rename_map_found {old new : String} :
    ∀ (st : Store) (m : Machine), getMachine st old = some m →
      hasName st new = false →
      getMachine (st.map (fun x =>
        if x.name == old then { x with name := new } else x)) new
          = some { m with name := new } := by
  intro st
  induction st with
  | nil => intro m hm _; simp [getMachine] at hm
  | cons x rest ih =>
    intro m hm hnew
    have hxnew : (x.name == new) = false := by
      rw [hasName] at hnew
      simp only [List.any_cons, Bool.or_eq_false_iff] at hnew
      exact hnew.1
    rw [hasName] at hnew
    simp only [List.any_cons, Bool.or_eq_false_iff] at hnew
    by_cases hx : x.name == old
    · rw [getMachine_cons, if_pos hx] at hm
      cases hm
      simp only [List.map_cons, if_pos hx]
      rw [getMachine_cons, if_pos (by simp)]
    · rw [getMachine_cons, if_neg hx] at hm
      simp only [List.map_cons, if_neg hx]
      rw [getMachine_cons, if_neg (by simp only [hxnew]; exact Bool.false_ne_true)]
      exact ih m hm hnew.2

theorem rename_map_absent {old new : String} (hne : old ≠ new) (st : Store) :
    getMachine (st.map (fun x =>
      if x.name == old then { x with name := new } else x)) old = none := by
  rw [getMachine_eq_none_iff]
  intro x hx
  rw [List.mem_map] at hx
  obtain ⟨y, hy, rfl⟩ := hx
  by_cases h : y.name == old
  · rw [if_pos h]
    simpa using fun heq => hne heq.symm
  · rw [if_neg h]
    simpa using fun heq => h (by rw [heq]; exact beq_self_eq_true old)

/-- C7 counterexample: the claim states that whenever a machine named `new`
already exists, `rename(old, new)` fails.  Renaming a machine to its own
current name refutes this: with a store containing a machine named "a",
`renameMachine st "a" "a"` succeeds (the SQL UPDATE affects one row and
violates no constraint) even though a machine named "a" exists. -/
theorem rename_to_existing_name_can_succeed :
    hasName [
      { id := 1, name := "a", owner := "o", port := 10022, localUser := "u",
        publicKey := "k", createdAt := 0, lastSeen := none }] "a" = true ∧
    renameMachine [
      { id := 1, name := "a", owner := "o", port := 10022, localUser := "u",
        publicKey := "k", createdAt := 0, lastSeen := none }] "a" "a" =
      .ok [
      { id := 1, name := "a", owner := "o", port := 10022, localUser := "u",
        publicKey := "k", createdAt := 0, lastSeen := none }] :=
  ⟨rfl, rfl⟩

/-- C7 (amended): rename is atomic and frame-preserving.  For every store
containing a machine named `old` and none named `new`, `renameMachine`
succeeds and afterwards `old` is absent and `new` resolves to the original
record with only its name changed (owner, port, local_user, public_key,
created_at, id and last_seen all unchanged).  If a machine named `new`
*distinct from* `old` exists, the rename fails (with the name-conflict error
when `old` exists, the not-found error otherwise); a failed statement
returns no new state, so no record is altered. -/
theorem renameMachine_atomic (st : Store) (old new : String) :
    (∀ m, getMachine st old = some m → getMachine st new = none →
      ∃ st', renameMachine st old new = .ok st' ∧
        getMachine st' old = none ∧
        getMachine st' new = some { m with name := new }) ∧
    (new ≠ old → hasName st new = true →
      renameMachine st old new = .error .nameConflict ∨
      renameMachine st old new = .error (.notFound old)) := by
  constructor
  · intro m hm hnone
    have hold : hasName st old = true := hasName_true_of_getMachine hm
    have hnew : hasName st new = false := by
      rw [getMachine_eq_none_iff] at hnone
      rw [hasName, List.any_eq_false]
      intro x hx
      simpa using hnone x hx
    have hne : old ≠ new := by
      intro heq
      rw [← heq] at hnew
      rw [hold] at hnew
      cases hnew
    refine ⟨st.map (fun x =>
      if x.name == old then { x with name := new } else x), ?_, ?_, ?_⟩
    · rw [renameMachine, if_pos hold, if_neg]
      rw [hnew, Bool.and_false]
      exact Bool.false_ne_true
    · exact rename_map_absent hne st
    · exact rename_map_found st m hm hnew
  · intro hne hnew
    by_cases hold : hasName st old
    · left
      rw [renameMachine, if_pos hold, if_pos]
      rw [hnew, Bool.and_true, bne_iff_ne]
      exact hne
    · right
      rw [renameMachine, if_neg hold]

/-- Witness for C7: a store with machines "a" (port 10022) and "b"
(port 10023); renaming "a" to "c" succeeds with the record preserved, and
renaming towards the existing name "b" fails. -/
theorem renameMachine_atomic_witness :
    getMachine [
      { id := 1, name := "a", owner := "o1", port := 10022, localUser := "u1",
        publicKey := "k1", createdAt := 5, lastSeen := none },
      { id := 2, name := "b", owner := "o2", port := 10023, localUser := "u2",
        publicKey := "k2", createdAt := 6, lastSeen := some 9 }] "a" = some
      { id := 1, name := "a", owner := "o1", port := 10022, localUser := "u1",
        publicKey := "k1", createdAt := 5, lastSeen := none } ∧
    getMachine [
      { id := 1, name := "a", owner := "o1", port := 10022, localUser := "u1",
        publicKey := "k1", createdAt := 5, lastSeen := none },
      { id := 2, name := "b", owner := "o2", port := 10023, localUser := "u2",
        publicKey := "k2", createdAt := 6, lastSeen := some 9 }] "c" = none ∧
    (∃ st', renameMachine [
      { id := 1, name := "a", owner := "o1", port := 10022, localUser := "u1",
        publicKey := "k1", createdAt := 5, lastSeen := none },
      { id := 2, name := "b", owner := "o2", port := 10023, localUser := "u2",
        publicKey := "k2", createdAt := 6, lastSeen := some 9 }] "a" "c" =
        .ok st' ∧
      getMachine st' "a" = none ∧
      getMachine st' "c" = some
        { id := 1, name := "c", owner := "o1", port := 10022,
          localUser := "u1", publicKey := "k1", createdAt := 5,
          lastSeen := none }) := by
  refine ⟨rfl, rfl, ?_⟩
  have h := (renameMachine_atomic [
      { id := 1, name := "a", owner := "o1", port := 10022, localUser := "u1",
        publicKey := "k1", createdAt := 5, lastSeen := none },
      { id := 2, name := "b", owner := "o2", port := 10023, localUser := "u2",
        publicKey := "k2", createdAt := 6, lastSeen := some 9 }] "a" "c").1
    { id := 1, name := "a", owner := "o1", port := 10022, localUser := "u1",
        publicKey := "k1", createdAt := 5, lastSeen := none } rfl rfl
  exact h

/-! ## Public-key validation (`internal/server/handlers.go`) -/

/-- Go's `unicode.IsSpace` restricted to the Latin-1 range: space, tab,
newline, vertical tab, form feed, carriage return, next line (U+0085) and
no-break space (U+00A0).  (`unicode.IsSpace` additionally accepts some
higher Unicode space code points; SSH key submissions are ASCII, for which
this predicate coincides with Go's.) -/
def goIsSpace (c : Char) : Bool :=
  c == ' ' || c == '\t' || c == '\n' || c == Char.ofNat 11 ||
  c == Char.ofNat 12 || c == '\r' || c == Char.ofNat 133 || c == Char.ofNat 160

/-- Go `strings.TrimSpace`: drop whitespace from both ends. -/
def goTrimSpace (s : String) : String :=
  ⟨((s.data.dropWhile goIsSpace).reverse.dropWhile goIsSpace).reverse⟩

/-- Go `strings.Fields`: the maximal runs of non-whitespace characters. -/
def goFields (s : String) : List String :=
  ((s.data.splitOnP goIsSpace).filter (fun l => l ≠ [])).map
    (fun l => (⟨l⟩ : String))

/-- The rejection reasons of `validatePublicKey` (handlers.go), one per
`return fmt.Errorf(...)` site. -/
inductive KeyError where
  | multiLine
  | tooLarge
  | badFormat
  | badType (t : String)
deriving Repr, DecidableEq

/-- The `validTypes` map literal of `validatePublicKey` (handlers.go). -/
def validTypes : List String :=
  ["ssh-rsa", "ssh-ed25519", "ecdsa-sha2-nistp256", "ecdsa-sha2-nistp384",
   "ecdsa-sha2-nistp521", "ssh-dss"]

/-- Function `validatePublicKey` (handlers.go): trim; reject an embedded newline;
reject more than 2048 bytes; require at least two whitespace-separated
fields (`len(parts) < 2`); require the first field (`parts[0]`, written
`headD ""` here, defined since the length check passed) to be a recognized
algorithm token. -/
def validatePublicKey (key : String) : Except KeyError Unit :=
  if (goTrimSpace key).data.contains '\n' then .error .multiLine
  else if 2048 < (goTrimSpace key).utf8ByteSize then .error .tooLarge
  else if (goFields (goTrimSpace key)).length < 2 then .error .badFormat
  else if validTypes.contains ((goFields (goTrimSpace key)).headD "") then
    .ok ()
  else .error (.badType ((goFields (goTrimSpace key)).headD ""))

/-- C10: a submitted key is accepted exactly when, after trimming, it has no
newline, is at most 2048 bytes, splits into at least two fields, and its
first field is one of the six recognized algorithm tokens; in particular a
legacy ssh-dss key is accepted and a single-field key is rejected. -/
theorem validatePublicKey_characterization (key : String) :
    (validatePublicKey key = .ok () ↔
      (goTrimSpace key).data.contains '\n' = false ∧
      (goTrimSpace key).utf8ByteSize ≤ 2048 ∧
      2 ≤ (goFields (goTrimSpace key)).length ∧
      (∃ t, (goFields (goTrimSpace key)).head? = some t ∧ t ∈ validTypes)) ∧
    validatePublicKey "ssh-dss AAAAB3NzaC1kc3M comment" = .ok () ∧
    validatePublicKey "AAAAB3NzaC1yc2E" = .error .badFormat := by
  refine ⟨?_, by rfl, by rfl⟩
  by_cases h1 : (goTrimSpace key).data.contains '\n'
  · rw [validatePublicKey, if_pos h1]
    refine iff_of_false (by intro h; cases h) ?_
    rintro ⟨hc, _, _, _⟩
    rw [h1] at hc
    cases hc
  · rw [validatePublicKey, if_neg h1]
    by_cases h2 : 2048 < (goTrimSpace key).utf8ByteSize
    · rw [if_pos h2]
      refine iff_of_false (by intro h; cases h) ?_
      rintro ⟨_, hc, _, _⟩
      omega
    · rw [if_neg h2]
      by_cases h3 : (goFields (goTrimSpace key)).length < 2
      · rw [if_pos h3]
        refine iff_of_false (by intro h; cases h) ?_
        rintro ⟨_, _, hc, _⟩
        omega
      · rw [if_neg h3]
        rcases hf : goFields (goTrimSpace key) with _ | ⟨t, rest⟩
        · rw [hf] at h3
          simp at h3
        · simp only [List.headD_cons]
          by_cases ht : validTypes.contains t
          · rw [if_pos ht]
            refine iff_of_true rfl
              ⟨Bool.not_eq_true _ ▸ h1, by omega, by rw [hf] at h3; omega,
                t, rfl, ?_⟩
            rw [← List.elem_iff]
            exact ht
          · rw [if_neg ht]
            refine iff_of_false (by intro h; cases h) ?_
            rintro ⟨_, _, _, t', ht', hmem⟩
            simp only [List.head?_cons, Option.some.injEq] at ht'
            subst ht'
            rw [← List.elem_iff] at hmem
            exact absurd hmem ht

/-! ## Routing config generator (`internal/config/generator.go`) -/

/-- One machine's block of `sshpiperTemplate`, with the template expanded:
`{{- range .Machines }}` trims the newline after `pipes:`, so each block
begins with a newline, and `{{- end }}` trims the newline after
`ignore_hostkey: true`. -/
def pipeBlock (keysDir serverKey : String) (m : Machine) : String :=
  "\n  - from:\n      - username: \"" ++ m.name ++
  "\"\n        authorized_keys:\n          - " ++ keysDir ++ "/" ++ m.name ++
  ".pub\n    to:\n      host: localhost:" ++ Nat.repr m.port ++
  "\n      username: \"" ++ m.localUser ++ "\"\n      private_key: " ++
  serverKey ++ "\n      ignore_hostkey: true"

/-- The blocks of all machines, in list order (the template's range loop). -/
def pipeBlocks (keysDir serverKey : String) : List Machine → String
  | [] => ""
  | m :: ms => pipeBlock keysDir serverKey m ++ pipeBlocks keysDir serverKey ms

/-- Function `Generate` (generator.go): the full sshpiper.yaml document written to
`ConfigPath` — header, one block per machine, trailing newline. -/
def sshpiperConfig (keysDir serverKey : String) (ms : List Machine) : String :=
  "version: \"1.0\"\npipes:" ++ pipeBlocks keysDir serverKey ms ++ "\n"

/-- C6: the routing-config generator is deterministic and total: it is a
function of exactly the machine list and the two configured paths, any two
runs on an identical input list produce byte-identical documents, and the
empty list produces the well-formed empty document (header only). -/
theorem generate_deterministic (keysDir serverKey : String)
    (ms1 ms2 : List Machine) (h : ms1 = ms2) :
    sshpiperConfig keysDir serverKey ms1 =
      sshpiperConfig keysDir serverKey ms2 ∧
    sshpiperConfig keysDir serverKey [] = "version: \"1.0\"\npipes:\n" := by
  subst h
  exact ⟨rfl, rfl⟩

/-- Witness for C6 at a concrete one-machine list. -/
theorem generate_deterministic_witness :
    sshpiperConfig "/data/keys" "/data/server-key" [
      { id := 1, name := "m1", owner := "o", port := 10022, localUser := "u",
        publicKey := "k", createdAt := 0, lastSeen := none }] =
    sshpiperConfig "/data/keys" "/data/server-key" [
      { id := 1, name := "m1", owner := "o", port := 10022, localUser := "u",
        publicKey := "k", createdAt := 0, lastSeen := none }] ∧
    sshpiperConfig "/data/keys" "/data/server-key" [] =
      "version: \"1.0\"\npipes:\n" :=
  generate_deterministic "/data/keys" "/data/server-key" _ _ rfl

/-! ## The merged credential file (`UpdateAuthorizedKeys`, generator.go) -/

/-- One machine's entry line (without the trailing newline):
`permitlisten="localhost:{port}",no-pty,no-agent-forwarding,no-X11-forwarding {key}`. -/
def authEntryLine (m : Machine) : String :=
  "permitlisten=\"localhost:" ++ Nat.repr m.port ++
  "\",no-pty,no-agent-forwarding,no-X11-forwarding " ++ m.publicKey

/-- One machine's entry as appended by the Go loop (`fmt.Sprintf` with a
trailing newline). -/
def authEntry (m : Machine) : String := authEntryLine m ++ "\n"

/-- The concatenation of all machine entries, in list order. -/
def machineEntries : List Machine → String
  | [] => ""
  | m :: ms => authEntry m ++ machineEntries ms

/-- The initial segment of the credential file: the server's public key as
read from `ServerKey + ".pub"` (skipped entirely if the read fails), with a
newline appended when the content is nonempty and does not end in one. -/
def serverKeyHeader : Option String → String
  | none => ""
  | some s =>
    if s.data = [] then s
    else if s.data.getLast? = some '\n' then s
    else s ++ "\n"

/-- Function `UpdateAuthorizedKeys` (generator.go): the content written to
`/home/bastion/.ssh/authorized_keys` — the server key header followed by one
restricted entry per machine. -/
def authorizedKeys (serverPub : Option String) (ms : List Machine) : String :=
  serverKeyHeader serverPub ++ machineEntries ms

/-- The entries of a newline-terminated credential file: split on newlines
and drop the final empty segment produced by the terminating newline. -/
def credEntries (out : String) : List String :=
  ((out.data.splitOn '\n').dropLast).map (fun l => (⟨l⟩ : String))

/-! ## C5: characterization of the credential file's entries -/

theorem data_append (a b : String) : (a ++ b).data = a.data ++ b.data := rfl

theorem mk_data (s : String) : (⟨s.data⟩ : String) = s := rfl

def joinNL (ls : List (List Char)) : List Char :=
  (ls.map (fun l => l ++ ['\n'])).flatten

theorem intercalate_cons_of_ne_nil (sep x : List Char) (xs : List (List Char))
    (h : xs ≠ []) :
    List.intercalate sep (x :: xs) = x ++ sep ++ List.intercalate sep xs := by
  rcases xs with _ | ⟨y, ys⟩
  · exact absurd rfl h
  · simp only [List.intercalate, List.intersperse_cons_cons, List.flatten_cons]
    rw [List.append_assoc]

theorem joinNL_eq_intercalate (ls : List (List Char)) :
    joinNL ls = List.intercalate ['\n'] (ls ++ [[]]) := by
  induction ls with
  | nil => simp [joinNL, List.intercalate]
  | cons a ls ih =>
    rw [joinNL, List.map_cons, List.flatten_cons]
    rw [List.cons_append, intercalate_cons_of_ne_nil _ _ _ (by simp)]
    rw [← ih]
    simp [joinNL, List.append_assoc]

theorem splitOn_joinNL (ls : List (List Char)) (h : ∀ l ∈ ls, '\n' ∉ l) :
    (joinNL ls).splitOn '\n' = ls ++ [[]] := by
  rw [joinNL_eq_intercalate]
  refine List.splitOn_intercalate (ls ++ [[]]) '\n' ?_ (by simp)
  intro l hl
  rcases List.mem_append.mp hl with h1 | h1
  · exact h l h1
  · simp at h1; subst h1; simp

theorem digitChar_ne_newline (n : Nat) : Nat.digitChar n ≠ '\n' := by
  unfold Nat.digitChar
  by_cases h0 : n = 0 <;> simp [h0]
  by_cases h1 : n = 1 <;> simp [h1]
  by_cases h2 : n = 2 <;> simp [h2]
  by_cases h3 : n = 3 <;> simp [h3]
  by_cases h4 : n = 4 <;> simp [h4]
  by_cases h5 : n = 5 <;> simp [h5]
  by_cases h6 : n = 6 <;> simp [h6]
  by_cases h7 : n = 7 <;> simp [h7]
  by_cases h8 : n = 8 <;> simp [h8]
  by_cases h9 : n = 9 <;> simp [h9]
  by_cases h10 : n = 10 <;> simp [h10]
  by_cases h11 : n = 11 <;> simp [h11]
  by_cases h12 : n = 12 <;> simp [h12]
  by_cases h13 : n = 13 <;> simp [h13]
  by_cases h14 : n = 14 <;> simp [h14]
  by_cases h15 : n = 15 <;> simp [h15]

theorem toDigitsCore_ne_newline (b : Nat) :
    ∀ (fuel n : Nat) (ds : List Char), '\n' ∉ ds →
      '\n' ∉ Nat.toDigitsCore b fuel n ds := by
  intro fuel
  induction fuel with
  | zero => intro n ds hds; simpa [Nat.toDigitsCore] using hds
  | succ fuel ih =>
    intro n ds hds
    rw [Nat.toDigitsCore]
    split
    · intro hmem
      rcases List.mem_cons.mp hmem with h | h
      · exact digitChar_ne_newline _ h.symm
      · exact hds h
    · refine ih _ _ ?_
      intro hmem
      rcases List.mem_cons.mp hmem with h | h
      · exact digitChar_ne_newline _ h.symm
      · exact hds h

theorem repr_ne_newline (n : Nat) : '\n' ∉ (Nat.repr n).data := by
  have := toDigitsCore_ne_newline 10 (n + 1) n [] (by simp)
  simpa [Nat.repr, Nat.toDigits, List.asString] using this

theorem authEntryLine_ne_newline {m : Machine}
    (hk : '\n' ∉ m.publicKey.data) : '\n' ∉ (authEntryLine m).data := by
  rw [authEntryLine]
  rw [data_append, data_append, data_append]
  intro hmem
  rcases List.mem_append.mp hmem with h | h
  · rcases List.mem_append.mp h with h | h
    · rcases List.mem_append.mp h with h | h
      · revert h; decide
      · exact repr_ne_newline _ h
    · revert h; decide
  · exact hk h

theorem machineEntries_data (ms : List Machine) :
    (machineEntries ms).data =
      joinNL (ms.map (fun m => (authEntryLine m).data)) := by
  induction ms with
  | nil => rfl
  | cons m ms ih =>
    rw [machineEntries, authEntry, data_append, data_append, ih]
    rfl

theorem serverKeyHeader_of_single_line {s : String} (hne : s ≠ "")
    (hnl : '\n' ∉ s.data) : serverKeyHeader (some s) = s ++ "\n" := by
  rw [serverKeyHeader]
  rw [if_neg (fun h => hne (by rw [← mk_data s, h]))]
  rw [if_neg]
  intro h
  obtain ⟨hx, heq⟩ := List.mem_getLast?_eq_getLast h
  exact hnl (heq ▸ List.getLast_mem hx)

/-- C5: for every machine list, whenever the server's public-key file reads
back a nonempty single-line key `s`, the regenerated credential file parses
into exactly the entry list `s :: machine entries`: the server key is the
first entry, each listed machine (with a single-line stored key) contributes
exactly one `permitlisten="localhost:{port}",no-pty,no-agent-forwarding,
no-X11-forwarding {key}` entry in list order, and no other entries exist —
in particular machines absent from the list (deleted ones) have no entry. -/
theorem authorizedKeys_entries (s : String) (ms : List Machine)
    (hne : s ≠ "") (hnl : '\n' ∉ s.data)
    (hm : ∀ m ∈ ms, '\n' ∉ m.publicKey.data) :
    credEntries (authorizedKeys (some s) ms) = s :: ms.map authEntryLine := by
  have hdata : (authorizedKeys (some s) ms).data =
      joinNL (s.data :: ms.map (fun m => (authEntryLine m).data)) := by
    rw [authorizedKeys, data_append, serverKeyHeader_of_single_line hne hnl]
    rw [data_append, machineEntries_data]
    rfl
  rw [credEntries, hdata, splitOn_joinNL]
  · rw [List.dropLast_concat, List.map_cons, mk_data, List.map_map]
    congr 1
  · intro l hl
    rcases List.mem_cons.mp hl with h | h
    · subst h; exact hnl
    · rw [List.mem_map] at h
      obtain ⟨m, hmm, rfl⟩ := h
      exact authEntryLine_ne_newline (hm m hmm)

/-- Witness for C5: a concrete server key and two machines. -/
theorem authorizedKeys_entries_witness :
    ("ssh-ed25519 SRV server" : String) ≠ "" ∧
    '\n' ∉ ("ssh-ed25519 SRV server" : String).data ∧
    credEntries (authorizedKeys (some "ssh-ed25519 SRV server") [
      { id := 1, name := "m1", owner := "o", port := 10022, localUser := "u",
        publicKey := "ssh-ed25519 AAA m1", createdAt := 0, lastSeen := none },
      { id := 2, name := "m2", owner := "o", port := 10023, localUser := "u",
        publicKey := "ssh-ed25519 BBB m2", createdAt := 0,
        lastSeen := none }]) =
      "ssh-ed25519 SRV server" :: [
      { id := 1, name := "m1", owner := "o", port := 10022, localUser := "u",
        publicKey := "ssh-ed25519 AAA m1", createdAt := 0, lastSeen := none },
      { id := 2, name := "m2", owner := "o", port := 10023, localUser := "u",
        publicKey := "ssh-ed25519 BBB m2", createdAt := 0,
        lastSeen := none }].map authEntryLine := by
  refine ⟨by decide, by decide, ?_⟩
  exact authorizedKeys_entries "ssh-ed25519 SRV server" _ (by decide)
    (by decide) (by decide)

/-! ## HTTP handler layer (`internal/server/handlers.go`) -/

/-- A character matched by the regex class `[a-zA-Z0-9]`. -/
def nameHeadChar (c : Char) : Bool :=
  ('a' ≤ c && c ≤ 'z') || ('A' ≤ c && c ≤ 'Z') || ('0' ≤ c && c ≤ '9')

/-- A character matched by the regex class `[a-zA-Z0-9._-]`. -/
def nameTailChar (c : Char) : Bool :=
  nameHeadChar c || c == '.' || c == '_' || c == '-'

/-- The `validName` regex of handlers.go:
`^[a-zA-Z0-9][a-zA-Z0-9._-]{0,63}$`. -/
def validName (s : String) : Bool :=
  match s.data with
  | [] => false
  | c :: rest =>
    nameHeadChar c && decide (rest.length ≤ 63) && rest.all nameTailChar

/-- The `err.Error()` text of each `validatePublicKey` rejection. -/
def keyErrorMessage : KeyError → String
  | .multiLine => "public key must be a single line"
  | .tooLarge => "public key too large"
  | .badFormat => "invalid SSH public key format"
  | .badType t => "unsupported key type: " ++ t

/-- The body of a `POST /api/register` request, after JSON decoding. -/
structure RegisterRequest where
  name : String
  owner : String
  localUser : String
  publicKey : String
deriving Repr, DecidableEq

/-- The externally visible outcome of `Register`: 400 with a message, 409
"machine already registered", 500, or 201 with the assigned port and the
echoed server public key. -/
inductive RegisterResult where
  | badRequest (msg : String)
  | conflict
  | serverError
  | created (port : Nat) (serverPublicKey : String)
deriving Repr, DecidableEq

/-- A rejection of `Register` before or at the store mutation. -/
inductive RegReject where
  | badRequest (msg : String)
  | conflict
  | serverError
deriving Repr, DecidableEq

def RegReject.toResult : RegReject → RegisterResult
  | .badRequest msg => .badRequest msg
  | .conflict => .conflict
  | .serverError => .serverError

/-- The decision prefix of `Register` (handlers.go): field presence, the
three name-format checks, public-key validation, the duplicate check via
`GetMachine`, then `CreateMachine`.  `.accept m st'` means the store
mutation committed, producing row `m` and table `st'`. -/
inductive RegOutcome where
  | reject (r : RegReject)
  | accept (m : Machine) (st' : Store)
deriving Repr, DecidableEq

def registerDecision (st : Store) (req : RegisterRequest) (now : Nat) :
    RegOutcome :=
  if req.name == "" || req.owner == "" || req.localUser == "" ||
      req.publicKey == "" then
    .reject (.badRequest "name, owner, local_user, and public_key are required")
  else if !validName req.name then
    .reject (.badRequest "invalid machine name: must be alphanumeric with optional dots, hyphens, underscores (max 64 chars)")
  else if !validName req.owner then
    .reject (.badRequest "invalid owner: must be alphanumeric with optional dots, hyphens, underscores (max 64 chars)")
  else if !validName req.localUser then
    .reject (.badRequest "invalid local_user: must be alphanumeric with optional dots, hyphens, underscores (max 64 chars)")
  else
    match validatePublicKey req.publicKey with
    | .error e => .reject (.badRequest (keyErrorMessage e))
    | .ok _ =>
      match getMachine st req.name with
      | some _ => .reject .conflict
      | none =>
        match createMachine st req.name req.owner req.localUser
            req.publicKey now with
        | .error _ => .reject .serverError
        | .ok (m, st') => .accept m st'

/-- The filesystem and store state the handlers act on: the machines table,
the per-machine key files under the keys directory (name ↦ content), and
the two generated files (absent until first written). -/
structure World where
  store : Store
  keyFiles : List (String × String)
  configFile : Option String
  credFile : Option String
deriving Repr, DecidableEq

/-- The handler environment: the generator's fixed paths, the content of
`ServerKey + ".pub"` if readable, and whether each fallible downstream file
write succeeds on this request. -/
structure Env where
  keysDir : String
  serverKey : String
  serverPub : Option String
  writeKeyOk : Bool
  generateOk : Bool
  authKeysOk : Bool
deriving Repr, DecidableEq

/-- Environment `env` with every downstream write succeeding. -/
def Env.allOk (env : Env) : Env :=
  { env with writeKeyOk := true, generateOk := true, authKeysOk := true }

/-- Function `WriteKey` (generator.go): write `publicKey + "\n"` to
`{keysDir}/{name}.pub`, replacing any previous content. -/
def writeKeyFile (files : List (String × String)) (name content : String) :
    List (String × String) :=
  (files.filter (fun kv => kv.fst != name)) ++ [(name, content)]

/-- Function `ListMachines` (migrations.go): the rows ordered by port
(insertion sort on the port column; ports are unique under the schema). -/
def insertByPort (m : Machine) : List Machine → List Machine
  | [] => [m]
  | x :: xs =>
    if m.port ≤ x.port then m :: x :: xs else x :: insertByPort m xs

def listMachines (st : Store) : List Machine := st.foldr insertByPort []

/-- Function `regenerateConfig` (handlers.go): re-list machines, rewrite the sshpiper
config (on failure the error is logged and the remaining steps skipped),
then rewrite the credential file (its failure only logged), then notify.
A failed write is modelled as leaving the previous file content. -/
def regenerateConfigW (env : Env) (w : World) : World :=
  if env.generateOk then
    let ms := listMachines w.store
    let w1 := { w with
      configFile := some (sshpiperConfig env.keysDir env.serverKey ms) }
    if env.authKeysOk then
      { w1 with credFile := some (authorizedKeys env.serverPub ms) }
    else w1
  else w

/-- The `server_public_key` field of the 201 response: the trimmed content
of `ServerKey + ".pub"`, or empty if the read fails. -/
def serverPubEcho : Option String → String
  | some c => goTrimSpace c
  | none => ""

/-- Function `Register` (handlers.go): decision prefix, then on success the
per-machine key file write (failure logged), config regeneration (failure
logged), and the 201 response carrying the assigned port. -/
def register (env : Env) (w : World) (req : RegisterRequest) (now : Nat) :
    RegisterResult × World :=
  match registerDecision w.store req now with
  | .reject r => (r.toResult, w)
  | .accept m st' =>
    let w1 := { w with store := st' }
    let w2 := if env.writeKeyOk then
        { w1 with keyFiles :=
          writeKeyFile w1.keyFiles m.name (m.publicKey ++ "\n") }
      else w1
    let w3 := regenerateConfigW env w2
    (.created m.port (serverPubEcho env.serverPub), w3)

/-- The outcome of `DELETE /api/machines/{name}`. -/
inductive DeleteResult where
  | ok
  | notFound
deriving Repr, DecidableEq

/-- Handler `DeleteMachine` (handlers.go): store delete (an error maps to
404), then `RemoveKey` with its error discarded, then config regeneration
with its error logged, then `{"ok":true}`. -/
def deleteHandler (env : Env) (w : World) (name : String) :
    DeleteResult × World :=
  match deleteMachine w.store name with
  | .error _ => (.notFound, w)
  | .ok st' =>
    let w1 := { w with store := st' }
    let w2 := { w1 with
      keyFiles := w1.keyFiles.filter (fun kv => kv.fst != name) }
    let w3 := regenerateConfigW env w2
    (.ok, w3)

/-! ## C4: downstream failures do not affect the committed mutation -/

theorem regenerateConfigW_store (env : Env) (w : World) :
    (regenerateConfigW env w).store = w.store := by
  rw [regenerateConfigW]
  split
  · split <;> rfl
  · rfl

theorem register_flag_indep (env : Env) (w : World) (req : RegisterRequest)
    (now : Nat) :
    (register env w req now).1 = (register env.allOk w req now).1 ∧
    (register env w req now).2.store =
      (register env.allOk w req now).2.store := by
  rw [register, register]
  cases registerDecision w.store req now with
  | reject r => exact ⟨rfl, rfl⟩
  | accept m st' =>
    refine ⟨rfl, ?_⟩
    rw [regenerateConfigW_store, regenerateConfigW_store]
    cases h : env.writeKeyOk <;> simp [h, Env.allOk]

theorem deleteHandler_flag_indep (env : Env) (w : World) (name : String) :
    (deleteHandler env w name).1 = (deleteHandler env.allOk w name).1 ∧
    (deleteHandler env w name).2.store =
      (deleteHandler env.allOk w name).2.store := by
  rw [deleteHandler, deleteHandler]
  cases deleteMachine w.store name with
  | error e => exact ⟨rfl, rfl⟩
  | ok st' =>
    refine ⟨rfl, ?_⟩
    rw [regenerateConfigW_store, regenerateConfigW_store]

/-- C4: if the store mutation of a create or delete request succeeds, a
failure of the per-machine key-file write, the routing-config regeneration,
or the credential-file regeneration (any combination of the three flags)
changes neither the resulting store state nor the reported result: the
request still returns its success response. -/
theorem downstream_failure_best_effort (env : Env) (w : World)
    (req : RegisterRequest) (now : Nat) (name : String) (p : Nat)
    (sk : String) :
    ((register env.allOk w req now).1 = .created p sk →
      (register env w req now).1 = .created p sk ∧
      (register env w req now).2.store =
        (register env.allOk w req now).2.store) ∧
    ((deleteHandler env.allOk w name).1 = .ok →
      (deleteHandler env w name).1 = .ok ∧
      (deleteHandler env w name).2.store =
        (deleteHandler env.allOk w name).2.store) := by
  constructor
  · intro h
    obtain ⟨h1, h2⟩ := register_flag_indep env w req now
    exact ⟨h1.trans h, h2⟩
  · intro h
    obtain ⟨h1, h2⟩ := deleteHandler_flag_indep env w name
    exact ⟨h1.trans h, h2⟩

/-- Witness for C4: all three downstream writes failing after a successful
registration and a successful deletion. -/
theorem downstream_failure_best_effort_witness :
    ((register (Env.allOk
        { keysDir := "/data/keys", serverKey := "/data/server-key",
          serverPub := none, writeKeyOk := false, generateOk := false,
          authKeysOk := false })
        { store := [], keyFiles := [], configFile := none, credFile := none }
        { name := "m1", owner := "alice", localUser := "alice",
          publicKey := "ssh-ed25519 AAAA m1" } 0).1 = .created 10022 "" →
      (register
        { keysDir := "/data/keys", serverKey := "/data/server-key",
          serverPub := none, writeKeyOk := false, generateOk := false,
          authKeysOk := false }
        { store := [], keyFiles := [], configFile := none, credFile := none }
        { name := "m1", owner := "alice", localUser := "alice",
          publicKey := "ssh-ed25519 AAAA m1" } 0).1 = .created 10022 "" ∧
      (register
        { keysDir := "/data/keys", serverKey := "/data/server-key",
          serverPub := none, writeKeyOk := false, generateOk := false,
          authKeysOk := false }
        { store := [], keyFiles := [], configFile := none, credFile := none }
        { name := "m1", owner := "alice", localUser := "alice",
          publicKey := "ssh-ed25519 AAAA m1" } 0).2.store =
        (register (Env.allOk
          { keysDir := "/data/keys", serverKey := "/data/server-key",
            serverPub := none, writeKeyOk := false, generateOk := false,
            authKeysOk := false })
          { store := [], keyFiles := [], configFile := none,
            credFile := none }
          { name := "m1", owner := "alice", localUser := "alice",
            publicKey := "ssh-ed25519 AAAA m1" } 0).2.store) ∧
    (register (Env.allOk
        { keysDir := "/data/keys", serverKey := "/data/server-key",
          serverPub := none, writeKeyOk := false, generateOk := false,
          authKeysOk := false })
        { store := [], keyFiles := [], configFile := none, credFile := none }
        { name := "m1", owner := "alice", localUser := "alice",
          publicKey := "ssh-ed25519 AAAA m1" } 0).1 = .created 10022 "" := by
  refine ⟨?_, by rfl⟩
  exact ((downstream_failure_best_effort
    { keysDir := "/data/keys", serverKey := "/data/server-key",
      serverPub := none, writeKeyOk := false, generateOk := false,
      authKeysOk := false }
    { store := [], keyFiles := [], configFile := none, credFile := none }
    { name := "m1", owner := "alice", localUser := "alice",
      publicKey := "ssh-ed25519 AAAA m1" } 0 "m1" 10022 "").1)

/-! ## C3: duplicate registration conflicts consume nothing -/

/-- A request that passes every pre-storage check of `Register`: all four
fields present, the three name-format checks, and public-key validation. -/
def requestWellFormed (req : RegisterRequest) : Bool :=
  !(req.name == "" || req.owner == "" || req.localUser == "" ||
      req.publicKey == "") &&
  validName req.name && validName req.owner && validName req.localUser &&
  (match validatePublicKey req.publicKey with
   | .ok _ => true
   | .error _ => false)

theorem getMachine_none_iff_hasName_false {st : Store} {n : String} :
    getMachine st n = none ↔ hasName st n = false := by
  rw [getMachine_eq_none_iff, hasName_false_iff]
  simp

theorem registerDecision_conflict {st : Store} {req : RegisterRequest}
    (now : Nat) (hval : requestWellFormed req = true)
    (hdup : hasName st req.name = true) :
    registerDecision st req now = .reject .conflict := by
  rw [requestWellFormed] at hval
  simp only [Bool.and_eq_true, Bool.not_eq_true'] at hval
  obtain ⟨⟨⟨⟨h1, h2⟩, h3⟩, h4⟩, h5⟩ := hval
  rw [registerDecision, if_neg (by rw [h1]; exact Bool.false_ne_true)]
  rw [if_neg (by rw [h2]; intro hc; cases hc)]
  rw [if_neg (by rw [h3]; intro hc; cases hc)]
  rw [if_neg (by rw [h4]; intro hc; cases hc)]
  cases hv : validatePublicKey req.publicKey with
  | error e => rw [hv] at h5; cases h5
  | ok u =>
    cases hg : getMachine st req.name with
    | none =>
      have hfalse := getMachine_none_iff_hasName_false.mp hg
      rw [hdup] at hfalse
      cases hfalse
    | some x => rfl

/-- C3: with a machine named `req.name` already present, a well-formed
re-registration under the same name returns the conflict result, leaves the
whole world (store, key files, generated files — hence machine count and the
port-occupancy set) unchanged, and a subsequent registration run on the
resulting state behaves exactly as if run on the original state — in
particular a create under a fresh name is assigned the very port it would
have received had the failed attempt never happened. -/
theorem duplicate_registration_conflict (env : Env) (w : World)
    (req : RegisterRequest) (now : Nat)
    (hval : requestWellFormed req = true)
    (hdup : hasName w.store req.name = true) :
    (register env w req now).1 = .conflict ∧
    (register env w req now).2 = w ∧
    ∀ req2 now2, register env (register env w req now).2 req2 now2 =
      register env w req2 now2 := by
  have hdec := registerDecision_conflict now hval hdup
  have h2 : (register env w req now).2 = w := by rw [register, hdec]
  refine ⟨by rw [register, hdec]; rfl, h2, ?_⟩
  intro req2 now2
  rw [h2]

/-- Witness for C3: re-registering the taken name "m1" conflicts and
changes nothing. -/
theorem duplicate_registration_conflict_witness :
    requestWellFormed
      { name := "m1", owner := "bob", localUser := "bob",
        publicKey := "ssh-rsa BBBB m1b" } = true ∧
    hasName [
      { id := 1, name := "m1", owner := "alice", port := 10022,
        localUser := "alice", publicKey := "ssh-ed25519 AAAA m1",
        createdAt := 0, lastSeen := none }] "m1" = true ∧
    (register
      { keysDir := "/data/keys", serverKey := "/data/server-key",
        serverPub := none, writeKeyOk := true, generateOk := true,
        authKeysOk := true }
      { store := [
          { id := 1, name := "m1", owner := "alice", port := 10022,
            localUser := "alice", publicKey := "ssh-ed25519 AAAA m1",
            createdAt := 0, lastSeen := none }],
        keyFiles := [("m1", "ssh-ed25519 AAAA m1\n")],
        configFile := none, credFile := none }
      { name := "m1", owner := "bob", localUser := "bob",
        publicKey := "ssh-rsa BBBB m1b" } 3).1 = .conflict ∧
    (register
      { keysDir := "/data/keys", serverKey := "/data/server-key",
        serverPub := none, writeKeyOk := true, generateOk := true,
        authKeysOk := true }
      { store := [
          { id := 1, name := "m1", owner := "alice", port := 10022,
            localUser := "alice", publicKey := "ssh-ed25519 AAAA m1",
            createdAt := 0, lastSeen := none }],
        keyFiles := [("m1", "ssh-ed25519 AAAA m1\n")],
        configFile := none, credFile := none }
      { name := "m1", owner := "bob", localUser := "bob",
        publicKey := "ssh-rsa BBBB m1b" } 3).2 =
      { store := [
          { id := 1, name := "m1", owner := "alice", port := 10022,
            localUser := "alice", publicKey := "ssh-ed25519 AAAA m1",
            createdAt := 0, lastSeen := none }],
        keyFiles := [("m1", "ssh-ed25519 AAAA m1\n")],
        configFile := none, credFile := none } := by
  refine ⟨by rfl, by rfl, ?_, ?_⟩
  · exact (duplicate_registration_conflict _ _ _ 3 (by rfl) (by rfl)).1
  · exact (duplicate_registration_conflict _ _ _ 3 (by rfl) (by rfl)).2.1

/-! ## C8: validation happens before any mutation -/

theorem validatePublicKey_error_of {key : String}
    (h : (goTrimSpace key).data.contains '\n' = true ∨
         2048 < (goTrimSpace key).utf8ByteSize ∨
         (∃ t rest, goFields (goTrimSpace key) = t :: rest ∧
           t ∉ validTypes)) :
    ∃ e, validatePublicKey key = .error e := by
  rw [validatePublicKey]
  by_cases h1 : (goTrimSpace key).data.contains '\n'
  · rw [if_pos h1]; exact ⟨_, rfl⟩
  · rw [if_neg h1]
    by_cases h2 : 2048 < (goTrimSpace key).utf8ByteSize
    · rw [if_pos h2]; exact ⟨_, rfl⟩
    · rw [if_neg h2]
      by_cases h3 : (goFields (goTrimSpace key)).length < 2
      · rw [if_pos h3]; exact ⟨_, rfl⟩
      · rw [if_neg h3]
        rcases h with h | h | ⟨t, rest, hf, ht⟩
        · exact absurd h h1
        · exact absurd h h2
        · rw [hf]
          rw [if_neg ?_]
          · exact ⟨_, rfl⟩
          · simp only [List.headD_cons]
            intro hc
            exact ht (List.elem_iff.mp hc)

theorem registerDecision_key_invalid (st : Store) {req : RegisterRequest}
    (now : Nat) {e : KeyError}
    (he : validatePublicKey req.publicKey = .error e) :
    ∃ msg, registerDecision st req now = .reject (.badRequest msg) := by
  rw [registerDecision]
  by_cases h1 : (req.name == "" || req.owner == "" || req.localUser == "" ||
      req.publicKey == "") = true
  · rw [if_pos h1]; exact ⟨_, rfl⟩
  · rw [if_neg h1]
    by_cases h2 : (!validName req.name) = true
    · rw [if_pos h2]; exact ⟨_, rfl⟩
    · rw [if_neg h2]
      by_cases h3 : (!validName req.owner) = true
      · rw [if_pos h3]; exact ⟨_, rfl⟩
      · rw [if_neg h3]
        by_cases h4 : (!validName req.localUser) = true
        · rw [if_pos h4]; exact ⟨_, rfl⟩
        · rw [if_neg h4]
          rw [he]
          exact ⟨_, rfl⟩

/-- C8: a registration request whose public key — after trimming — still
spans two lines, or exceeds 2048 bytes, or carries an unrecognized leading
algorithm token, is rejected with a 400 validation error, and the whole
world (store, port occupancy, key files and generated files) is exactly as
before the request. -/
theorem invalid_key_rejected_before_mutation (env : Env) (w : World)
    (req : RegisterRequest) (now : Nat)
    (h : (goTrimSpace req.publicKey).data.contains '\n' = true ∨
         2048 < (goTrimSpace req.publicKey).utf8ByteSize ∨
         (∃ t rest, goFields (goTrimSpace req.publicKey) = t :: rest ∧
           t ∉ validTypes)) :
    (∃ msg, (register env w req now).1 = .badRequest msg) ∧
    (register env w req now).2 = w := by
  obtain ⟨e, he⟩ := validatePublicKey_error_of h
  obtain ⟨msg, hdec⟩ := registerDecision_key_invalid w.store now he
  rw [register, hdec]
  exact ⟨⟨msg, rfl⟩, rfl⟩

/-- Witness for C8: a two-line key, an oversized key, and an
unknown-algorithm key are each rejected with the world unchanged. -/
theorem invalid_key_rejected_before_mutation_witness :
    ((goTrimSpace "ssh-rsa AAAA\nssh-rsa BBBB").data.contains '\n' = true ∨
      2048 < (goTrimSpace "ssh-rsa AAAA\nssh-rsa BBBB").utf8ByteSize ∨
      (∃ t rest, goFields (goTrimSpace "ssh-rsa AAAA\nssh-rsa BBBB") =
        t :: rest ∧ t ∉ validTypes)) ∧
    (∃ msg, (register
      { keysDir := "/data/keys", serverKey := "/data/server-key",
        serverPub := none, writeKeyOk := true, generateOk := true,
        authKeysOk := true }
      { store := [], keyFiles := [], configFile := none, credFile := none }
      { name := "m1", owner := "alice", localUser := "alice",
        publicKey := "ssh-rsa AAAA\nssh-rsa BBBB" } 0).1 =
        .badRequest msg) ∧
    (register
      { keysDir := "/data/keys", serverKey := "/data/server-key",
        serverPub := none, writeKeyOk := true, generateOk := true,
        authKeysOk := true }
      { store := [], keyFiles := [], configFile := none, credFile := none }
      { name := "m1", owner := "alice", localUser := "alice",
        publicKey := "ssh-rsa AAAA\nssh-rsa BBBB" } 0).2 =
      { store := [], keyFiles := [], configFile := none,
        credFile := none } := by
  have hd : (goTrimSpace "ssh-rsa AAAA\nssh-rsa BBBB").data.contains '\n'
      = true ∨
      2048 < (goTrimSpace "ssh-rsa AAAA\nssh-rsa BBBB").utf8ByteSize ∨
      (∃ t rest, goFields (goTrimSpace "ssh-rsa AAAA\nssh-rsa BBBB") =
        t :: rest ∧ t ∉ validTypes) := Or.inl (by rfl)
  have happ := invalid_key_rejected_before_mutation
    { keysDir := "/data/keys", serverKey := "/data/server-key",
      serverPub := none, writeKeyOk := true, generateOk := true,
      authKeysOk := true }
    { store := [], keyFiles := [], configFile := none, credFile := none }
    { name := "m1", owner := "alice", localUser := "alice",
      publicKey := "ssh-rsa AAAA\nssh-rsa BBBB" } 0 hd
  exact ⟨hd, happ.1, happ.2⟩

/-! ## C9: the stored public key is the submitted string, untrimmed -/

theorem createMachine_ok {st st' : Store}
    {name owner localUser publicKey : String} {now : Nat} {m : Machine}
    (h : createMachine st name owner localUser publicKey now =
      .ok (m, st')) :
    m.publicKey = publicKey ∧ m.name = name ∧ st' = st ++ [m] := by
  cases halloc : allocatePort st with
  | error e => simp [createMachine, halloc] at h
  | ok p =>
    by_cases hn : hasName st name
    · simp [createMachine, halloc, hn] at h
    · simp [createMachine, halloc, hn] at h
      obtain ⟨hm, hst⟩ := h
      subst hm
      exact ⟨rfl, rfl, hst.symm⟩

theorem getMachine_append_none {st : Store} {n : String} {m : Machine}
    (h : getMachine st n = none) (hm : (m.name == n) = true) :
    getMachine (st ++ [m]) n = some m := by
  rw [getMachine, List.find?_append]
  rw [getMachine] at h
  rw [h]
  simp [hm]

theorem validatePublicKey_ok_facts {key : String}
    (h : validatePublicKey key = .ok ()) :
    (goTrimSpace key).data.contains '\n' = false ∧
    (goTrimSpace key).utf8ByteSize ≤ 2048 := by
  by_cases h1 : (goTrimSpace key).data.contains '\n'
  · rw [validatePublicKey, if_pos h1] at h; cases h
  · by_cases h2 : 2048 < (goTrimSpace key).utf8ByteSize
    · rw [validatePublicKey, if_neg h1, if_pos h2] at h; cases h
    · exact ⟨Bool.not_eq_true _ ▸ h1, by omega⟩

theorem registerDecision_accept_facts {st : Store} {req : RegisterRequest}
    {now : Nat} {m : Machine} {st' : Store}
    (h : registerDecision st req now = .accept m st') :
    validatePublicKey req.publicKey = .ok () ∧
    getMachine st req.name = none ∧
    createMachine st req.name req.owner req.localUser req.publicKey now =
      .ok (m, st') := by
  rw [registerDecision] at h
  by_cases h1 : (req.name == "" || req.owner == "" || req.localUser == "" ||
      req.publicKey == "") = true
  · rw [if_pos h1] at h; cases h
  · rw [if_neg h1] at h
    by_cases h2 : (!validName req.name) = true
    · rw [if_pos h2] at h; cases h
    · rw [if_neg h2] at h
      by_cases h3 : (!validName req.owner) = true
      · rw [if_pos h3] at h; cases h
      · rw [if_neg h3] at h
        by_cases h4 : (!validName req.localUser) = true
        · rw [if_pos h4] at h; cases h
        · rw [if_neg h4] at h
          cases hv : validatePublicKey req.publicKey with
          | error e => rw [hv] at h; cases h
          | ok u =>
            rw [hv] at h
            cases hg : getMachine st req.name with
            | some x => rw [hg] at h; cases h
            | none =>
              rw [hg] at h
              cases hc : createMachine st req.name req.owner req.localUser
                  req.publicKey now with
              | error e => rw [hc] at h; cases h
              | ok pr =>
                obtain ⟨m0, st0⟩ := pr
                rw [hc] at h
                cases h
                exact ⟨by cases u; rfl, rfl, rfl⟩

/-- C9 counterexample: the submitted key `"ssh-ed25519 AAAA\n"` — with a
trailing newline — passes validation (which trims a local copy only) and is
persisted verbatim, so the stored public_key carries trailing whitespace and
contains a newline character, contradicting the claim. -/
theorem stored_key_not_trimmed_counterexample :
    (register
      { keysDir := "/data/keys", serverKey := "/data/server-key",
        serverPub := none, writeKeyOk := true, generateOk := true,
        authKeysOk := true }
      { store := [], keyFiles := [], configFile := none, credFile := none }
      { name := "m1", owner := "alice", localUser := "alice",
        publicKey := "ssh-ed25519 AAAA\n" } 0).1 = .created 10022 "" ∧
    getMachine (register
      { keysDir := "/data/keys", serverKey := "/data/server-key",
        serverPub := none, writeKeyOk := true, generateOk := true,
        authKeysOk := true }
      { store := [], keyFiles := [], configFile := none, credFile := none }
      { name := "m1", owner := "alice", localUser := "alice",
        publicKey := "ssh-ed25519 AAAA\n" } 0).2.store "m1" = some
      { id := 1, name := "m1", owner := "alice", port := 10022,
        localUser := "alice", publicKey := "ssh-ed25519 AAAA\n",
        createdAt := 0, lastSeen := none } ∧
    ("ssh-ed25519 AAAA\n").data.contains '\n' = true :=
  ⟨rfl, rfl, rfl⟩

/-- C9 (amended): the public_key persisted by a successful registration is
the submitted string verbatim — no trimming is applied before storage, so
the stored value may carry the submission's surrounding whitespace — while
validation guarantees that the trimmed form of the stored key contains no
newline and is at most 2048 bytes. -/
theorem stored_key_verbatim (env : Env) (w : World) (req : RegisterRequest)
    (now : Nat) (p : Nat) (sk : String)
    (h : (register env w req now).1 = .created p sk) :
    (∃ m, getMachine (register env w req now).2.store req.name = some m ∧
      m.publicKey = req.publicKey) ∧
    (goTrimSpace req.publicKey).data.contains '\n' = false ∧
    (goTrimSpace req.publicKey).utf8ByteSize ≤ 2048 := by
  cases hdec : registerDecision w.store req now with
  | reject r =>
    rw [register, hdec] at h
    cases r <;> cases h
  | accept m st' =>
    obtain ⟨hv, hg, hc⟩ := registerDecision_accept_facts hdec
    obtain ⟨hpk, hname, hst⟩ := createMachine_ok hc
    obtain ⟨hnl, hsize⟩ := validatePublicKey_ok_facts hv
    refine ⟨⟨m, ?_, hpk⟩, hnl, hsize⟩
    have hstore : (register env w req now).2.store = st' := by
      rw [register, hdec, regenerateConfigW_store]
      cases hwk : env.writeKeyOk <;> simp [hwk]
    rw [hstore, hst]
    exact getMachine_append_none hg (by rw [hname]; exact beq_self_eq_true _)

/-- Witness for C9 (amended): a concrete successful registration. -/
theorem stored_key_verbatim_witness :
    (register
      { keysDir := "/data/keys", serverKey := "/data/server-key",
        serverPub := none, writeKeyOk := true, generateOk := true,
        authKeysOk := true }
      { store := [], keyFiles := [], configFile := none, credFile := none }
      { name := "m2", owner := "bob", localUser := "bob",
        publicKey := "ssh-rsa CCCC m2" } 7).1 = .created 10022 "" ∧
    ((∃ m, getMachine (register
      { keysDir := "/data/keys", serverKey := "/data/server-key",
        serverPub := none, writeKeyOk := true, generateOk := true,
        authKeysOk := true }
      { store := [], keyFiles := [], configFile := none, credFile := none }
      { name := "m2", owner := "bob", localUser := "bob",
        publicKey := "ssh-rsa CCCC m2" } 7).2.store "m2" = some m ∧
      m.publicKey = "ssh-rsa CCCC m2") ∧
    (goTrimSpace "ssh-rsa CCCC m2").data.contains '\n' = false ∧
    (goTrimSpace "ssh-rsa CCCC m2").utf8ByteSize ≤ 2048) := by
  refine ⟨by rfl, ?_⟩
  exact stored_key_verbatim
    { keysDir := "/data/keys", serverKey := "/data/server-key",
      serverPub := none, writeKeyOk := true, generateOk := true,
      authKeysOk := true }
    { store := [], keyFiles := [], configFile := none, credFile := none }
    { name := "m2", owner := "bob", localUser := "bob",
      publicKey := "ssh-rsa CCCC m2" } 7 10022 "" (by rfl)

end Bastion
